import Mathlib

/-!
Shallow embedding of the hb_migrations migration engine (migrations.go).
The repository holds two historical variants of the file; the embedding
follows the current one (the variant whose migrate takes a one-by-one flag),
and where a claim cites the older variant the relevant logic is identical
(the rollback sort, the drift check and the ascending migrate sort agree in
both). Database state is the ledger table, modelled explicitly; the Up and
Down actions of a migration are black boxes to the engine, modelled by the
outcome the engine observes (success or a returned error). Each engine
operation returns the error it reports, the ledger as persisted after the
operation (a transaction that returns an error leaves the ledger unchanged),
and the trace of migration names whose Up or Down action was invoked, in
invocation order.
-/

namespace HbMigrations

/-- Errors produced by the engine: a plain message (errors.New / Errorf), or
a wrapped cause with added context (errors.Wrapf). -/
inductive Err where
  | msg (s : String)
  | wrap (cause : Err) (context : String)
deriving Repr, DecidableEq

/-- The message of the outermost layer of an error. -/
def errMessage : Err → String
  | .msg s => s
  | .wrap _ c => c

/-- Whether an error is the code-ledger drift error; both variants word it
starting with this phrase ("Migrations table corrupt", the newer migrate
appends the missing names). The check is on the character list of the
message. -/
def isDriftError (e : Err) : Bool :=
  "Migrations table corrupt".toList.isPrefixOf (errMessage e).toList

/-- A registered migration: its name and the outcomes of its forward (Up)
and backward (Down) actions, none meaning the action succeeds and some e
meaning it returns the error e. -/
structure migration where
  Name : String
  Up : Option Err
  Down : Option Err
deriving Repr, DecidableEq

/-- The process-wide registry: the ordered migrationNames slice and the
allMigrations map, the latter modelled as an association list with unique
keys (lookup finds the entry for a key, insertion overwrites it). -/
structure Registry where
  migrationNames : List String
  allMigrations : List (String × migration)
deriving Repr, DecidableEq

def emptyRegistry : Registry := ⟨[], []⟩

/-- Register appends name to migrationNames unconditionally and assigns
allMigrations[name], overwriting any earlier entry for the same key, exactly
as the Go map assignment does. It has no failure path. -/
def Register (reg : Registry) (name : String) (up down : Option Err) : Registry :=
  { migrationNames := reg.migrationNames ++ [name]
    allMigrations :=
      (name, ⟨name, up, down⟩) :: reg.allMigrations.filter (fun p => p.1 ≠ name) }

/-- The Up outcome of allMigrations[name]. A missing key is modelled as a
failing outcome: in Go the zero-value function would crash the run, so this
case never reports success. -/
def upOutcome (reg : Registry) (name : String) : Option Err :=
  match reg.allMigrations.lookup name with
  | some m => m.Up
  | none => some (Err.msg "nil migration")

/-- The Down outcome of allMigrations[name], as upOutcome. -/
def downOutcome (reg : Registry) (name : String) : Option Err :=
  match reg.allMigrations.lookup name with
  | some m => m.Down
  | none => some (Err.msg "nil migration")

/-- One row of the ledger table: id serial, name varchar, batch integer.
The migration_time column plays no part in any claim and is omitted. -/
structure LedgerRow where
  id : Nat
  name : String
  batch : Int
deriving Repr, DecidableEq

/-- The ledger table plus the state of its serial id sequence. Rows are kept
in insertion order; ids are drawn from the increasing counter nextId. -/
structure Ledger where
  rows : List LedgerRow
  nextId : Nat
deriving Repr, DecidableEq

def emptyLedger : Ledger := ⟨[], 0⟩

/-- getCompletedMigrations: select name from the ledger table. -/
def getCompletedMigrations (l : Ledger) : List String :=
  l.rows.map (·.name)

/-- Descending id order on ledger rows, the order by id desc of
getMigrationsInBatch. Rows the engine produced have distinct ids, so any
sort realising this order yields the same list. -/
def rowGe (r s : LedgerRow) : Prop := s.id ≤ r.id

instance : DecidableRel rowGe := fun r s => by unfold rowGe; infer_instance

/-- getMigrationsInBatch: select name where batch = ? order by id desc. -/
def getMigrationsInBatch (l : Ledger) (batch : Int) : List String :=
  (List.insertionSort rowGe (l.rows.filter (fun r => r.batch = batch))).map (·.name)

/-- Maximum of a list of batch numbers, 0 for the empty list: select
max(batch) yields NULL on an empty table, which go-pg scans into the zero
value 0. -/
def maxBatchList : List Int → Int
  | [] => 0
  | b :: bs => bs.foldl max b

/-- getBatchNumber: select max(batch) from the ledger table. -/
def getBatchNumber (l : Ledger) : Int :=
  maxBatchList (l.rows.map (·.batch))

/-- insertCompletedMigration: insert one row (name, batch, now()). -/
def insertCompletedMigration (l : Ledger) (name : String) (batch : Int) : Ledger :=
  ⟨l.rows ++ [⟨l.nextId, name, batch⟩], l.nextId + 1⟩

/-- removeRolledbackMigration: delete from the table where name = ?. Every
row bearing the name goes, whatever its batch. -/
def removeRolledbackMigration (l : Ledger) (name : String) : Ledger :=
  ⟨l.rows.filter (fun r => r.name ≠ name), l.nextId⟩

/-- The membership function of the Go map mb that difference builds by
ranging over b. -/
def mkSet (b : List String) : String → Bool :=
  b.foldl (fun m x => fun y => if y = x then true else m y) (fun _ => false)

/-- difference: the elements of a that are not keys of the map built from b,
in their order in a (func difference in migrations.go). -/
def difference (a b : List String) : List String :=
  a.filter (fun x => ! mkSet b x)

/-- The non-strict form of the byte-wise order of Go strings, stated on
the character lists (byte order and codepoint order agree on UTF-8 text):
a may precede b exactly when b is not strictly below a. -/
def strLe (a b : String) : Prop := ¬ b.toList < a.toList

instance : DecidableRel strLe := fun a b => by unfold strLe; infer_instance

/-- The reversed order rollback sorts by: its sort.Slice comparator places
i before j exactly when name i is strictly greater than name j. -/
def strGe (a b : String) : Prop := ¬ a.toList < b.toList

instance : DecidableRel strGe := fun a b => by unfold strGe; infer_instance

/-- The ascending lexicographic sort migrate applies (sort.Strings in the
newer variant; the older variant sorts with an ascending comparator).
Equal names are interchangeable, so any sort realising the order yields
the same name list as the source's. -/
def sortAsc (xs : List String) : List String :=
  List.insertionSort strLe xs

/-- The descending lexicographic sort rollback applies through
sort.Slice. -/
def sortDesc (xs : List String) : List String :=
  List.insertionSort strGe xs

/-- Renders the %+v formatting of a slice of names inside the newer drift
message. -/
def renderNames (xs : List String) : String :=
  "[" ++ String.intercalate " " xs ++ "]"

/-- getMigrationsToRun: the drift check (ledger names minus registered
names must be empty) followed by the pending-set computation (registered
names minus ledger names), sorted ascending. -/
def getMigrationsToRun (reg : Registry) (l : Ledger) : Except Err (List String) :=
  let migrations := getCompletedMigrations l
  let missingMigrations := difference migrations reg.migrationNames
  if missingMigrations.length > 0 then
    .error (.msg ("Migrations table corrupt: " ++ renderNames missingMigrations))
  else
    .ok (sortAsc (difference reg.migrationNames migrations))

/-- The forward loop of a batch: run each Up in order, inserting a ledger
row after each success; the first failure stops the loop with the error
wrapped as "(name) failed to migrate". The third component is the trace of
Up invocations. -/
def runUpAll (reg : Registry) (batch : Int) :
    List String → Ledger → Option Err × Ledger × List String
  | [], l => (none, l, [])
  | m :: rest, l =>
    match upOutcome reg m with
    | some e => (some (Err.wrap e (m ++ " failed to migrate")), l, [m])
    | none =>
      let next := runUpAll reg batch rest (insertCompletedMigration l m batch)
      (next.1, next.2.1, m :: next.2.2)

/-- migrateOneBatch: one transaction around the drift check, the pending
plan, and the forward loop under the single batch number max + 1; an error
anywhere rolls the whole transaction back, leaving the ledger untouched. -/
def migrateOneBatch (reg : Registry) (l : Ledger) : Option Err × Ledger × List String :=
  match getMigrationsToRun reg l with
  | .error e => (some e, l, [])
  | .ok migrationsToRun =>
    if migrationsToRun.isEmpty then (none, l, [])
    else
      let batch := getBatchNumber l + 1
      match runUpAll reg batch migrationsToRun l with
      | (some e, _, tr) => (some e, l, tr)
      | (none, l2, tr) => (none, l2, tr)

/-- The per-migration loop of migrateOneByOne: each iteration is its own
transaction that reads the current max batch, adds one, runs Up and inserts
the row on success; a failure aborts only that transaction, so the commits
of earlier iterations stand. -/
def oneByOneLoop (reg : Registry) :
    List String → Ledger → Option Err × Ledger × List String
  | [], l => (none, l, [])
  | m :: rest, l =>
    let batch := getBatchNumber l + 1
    match upOutcome reg m with
    | some e => (some (Err.wrap e (m ++ " failed to migrate")), l, [m])
    | none =>
      let next := oneByOneLoop reg rest (insertCompletedMigration l m batch)
      (next.1, next.2.1, m :: next.2.2)

/-- migrateOneByOne: a first transaction performs the drift check and
computes the plan; then each pending migration runs in its own transaction
via oneByOneLoop. -/
def migrateOneByOne (reg : Registry) (l : Ledger) : Option Err × Ledger × List String :=
  match getMigrationsToRun reg l with
  | .error e => (some e, l, [])
  | .ok migrationsToRun => oneByOneLoop reg migrationsToRun l

/-- migrate dispatches on the one-by-one flag. -/
def migrate (reg : Registry) (l : Ledger) (oneByOne : Bool) :
    Option Err × Ledger × List String :=
  if oneByOne then migrateOneByOne reg l else migrateOneBatch reg l

/-- The backward loop of rollback: run each Down in order, deleting the
rows bearing the name after each success; the first failure stops the loop
with the error wrapped as "(name) failed to rollback". -/
def runDownAll (reg : Registry) :
    List String → Ledger → Option Err × Ledger × List String
  | [], l => (none, l, [])
  | m :: rest, l =>
    match downOutcome reg m with
    | some e => (some (Err.wrap e (m ++ " failed to rollback")), l, [m])
    | none =>
      let next := runDownAll reg rest (removeRolledbackMigration l m)
      (next.1, next.2.1, m :: next.2.2)

/-- rollback: one transaction around the drift check, the max-batch read,
the batch name list (delivered in descending-id order), the descending
lexicographic sort the source applies on top of it, and the backward loop;
an error rolls the transaction back, leaving the ledger untouched. -/
def rollback (reg : Registry) (l : Ledger) : Option Err × Ledger × List String :=
  let migrations := getCompletedMigrations l
  let missingMigrations := difference migrations reg.migrationNames
  if missingMigrations.length > 0 then
    (some (Err.msg "Migrations table corrupt"), l, [])
  else
    let batch := getBatchNumber l
    let migrationsToRun := getMigrationsInBatch l batch
    if migrationsToRun.isEmpty then (none, l, [])
    else
      match runDownAll reg (sortDesc migrationsToRun) l with
      | (some e, _, tr) => (some e, l, tr)
      | (none, l2, tr) => (none, l2, tr)

/-- initialise: one transaction that unconditionally plans the single
configured initial migration under batch max + 1, looks it up (error if
unregistered), runs its Up (error propagated unwrapped) and inserts its
row. The ledger content is never consulted beyond the max batch. -/
def initialise (reg : Registry) (initialMigration : String) (l : Ledger) :
    Option Err × Ledger × List String :=
  let batch := getBatchNumber l + 1
  match reg.allMigrations.lookup initialMigration with
  | none => (some (Err.msg "Initial migration not found"), l, [])
  | some m =>
    match m.Up with
    | some e => (some e, l, [initialMigration])
    | none => (none, insertCompletedMigration l initialMigration batch, [initialMigration])

/-- What an invocation of Run amounts to: a database action with its error
and resulting ledger, a scaffold-file creation (no database interaction),
or a usage error returned before anything else happens. -/
inductive RunResult where
  | db (e : Option Err) (l : Ledger)
  | scaffold (name : String) (template : String)
  | usage (e : Err)
deriving Repr, DecidableEq

/-- Run: the command dispatcher of the newer variant. init, migrate and
rollback act on the database; create validates its name argument first and
never touches the database; any other command is rejected by name. -/
def Run (reg : Registry) (initialMigration : String) (l : Ledger)
    (cmd : String) (options : List String) : RunResult :=
  if cmd = "init" then
    let r := initialise reg initialMigration l
    .db r.1 r.2.1
  else if cmd = "migrate" then
    let extra := options.headD ""
    let r := migrate reg l (extra == "one-by-one")
    .db r.1 r.2.1
  else if cmd = "rollback" then
    let r := rollback reg l
    .db r.1 r.2.1
  else if cmd = "create" then
    let name := options.headD ""
    let template := options.getD 1 ""
    if name.length = 0 then .usage (.msg "Please enter migration name")
    else .scaffold (name.replace " " "_") template
  else .usage (.msg ("unsupported command: \"" ++ cmd ++ "\""))

/-- Inserting a list of names one after the other under one batch number,
as the forward loop does on its success path. -/
def insertAll (l : Ledger) (names : List String) (batch : Int) : Ledger :=
  names.foldl (fun acc n => insertCompletedMigration acc n batch) l

/-- The rows such a run of insertions appends. -/
def buildRows (startId : Nat) (names : List String) (batch : Int) : List LedgerRow :=
  match names with
  | [] => []
  | n :: rest => ⟨startId, n, batch⟩ :: buildRows (startId + 1) rest batch

/-- Deleting the rows of a list of names one after the other, as the
backward loop does on its success path. -/
def removeAll (l : Ledger) (names : List String) : Ledger :=
  names.foldl removeRolledbackMigration l

/-- The pending set migrate computes: registered names minus ledger names
(migrationsToRun inside getMigrationsToRun). -/
def pendingOf (reg : Registry) (l : Ledger) : List String :=
  difference reg.migrationNames (getCompletedMigrations l)

/-- The list rollback iterates over: the names of the highest batch,
sorted by the descending lexicographic comparator the source hands to
sort.Slice. -/
def rollbackPlan (l : Ledger) : List String :=
  sortDesc (getMigrationsInBatch l (getBatchNumber l))

/-- Fixture: "b" registered before "a", both actions succeeding. -/
def regBA : Registry :=
  Register (Register emptyRegistry "b" none none) "a" none none

/-- Fixture: regBA plus a later registration "c". -/
def regBAC : Registry := Register regBA "c" none none

/-- Fixture: a ledger whose single batch 1 recorded "b" (id 0) before "a"
(id 1): rows inserted out of lexicographic name order. -/
def ledgerBA : Ledger := ⟨[⟨0, "b", 1⟩, ⟨1, "a", 1⟩], 2⟩

/-- Fixture: the ledger a first successful migrate of regBA writes. -/
def ledgerBatch1 : Ledger := ⟨[⟨0, "a", 1⟩, ⟨1, "b", 1⟩], 2⟩

/-- Fixture: only "a" registered. -/
def regOnlyA : Registry := Register emptyRegistry "a" none none

/-- Fixture: a drifted ledger, recording the unregistered name "z". -/
def ledgerDrift : Ledger := ⟨[⟨0, "a", 1⟩, ⟨1, "z", 1⟩], 2⟩

/-- Fixture: "a" and "c" succeed, the forward action of "b" fails. -/
def regFailB : Registry :=
  Register (Register (Register emptyRegistry "a" none none)
    "b" (some (Err.msg "boom")) none) "c" none none
instance : IsTotal String strLe :=
  ⟨fun a b => (le_total a.toList b.toList).imp not_lt.mpr not_lt.mpr⟩

instance : IsTrans String strLe :=
  ⟨fun _ _ _ hab hbc => not_lt.mpr (le_trans (not_lt.mp hab) (not_lt.mp hbc))⟩

instance : IsTotal String strGe :=
  ⟨fun a b => (le_total b.toList a.toList).imp not_lt.mpr not_lt.mpr⟩

instance : IsTrans String strGe :=
  ⟨fun _ _ _ hab hbc => not_lt.mpr (le_trans (not_lt.mp hbc) (not_lt.mp hab))⟩

instance : IsTotal LedgerRow rowGe := ⟨fun r s => (le_total s.id r.id).imp id id⟩

instance : IsTrans LedgerRow rowGe := ⟨fun _ _ _ hab hbc => le_trans hbc hab⟩
theorem strLe_iff_le (a b : String) : strLe a b ↔ a ≤ b := by
  unfold strLe
  rw [← String.lt_iff_toList_lt]
  exact not_lt

theorem strGe_iff_le (a b : String) : strGe a b ↔ b ≤ a := by
  unfold strGe
  rw [← String.lt_iff_toList_lt]
  exact not_lt

theorem sortAsc_perm (xs : List String) : (sortAsc xs).Perm xs :=
  List.perm_insertionSort strLe xs

theorem mem_sortAsc {xs : List String} {x : String} : x ∈ sortAsc xs ↔ x ∈ xs :=
  (List.perm_insertionSort strLe xs).mem_iff

theorem sortAsc_sorted (xs : List String) : (sortAsc xs).Sorted (· ≤ ·) :=
  (List.sorted_insertionSort strLe xs).imp (fun {a b} h => (strLe_iff_le a b).mp h)

theorem sortDesc_perm (xs : List String) : (sortDesc xs).Perm xs :=
  List.perm_insertionSort strGe xs

theorem mem_sortDesc {xs : List String} {x : String} : x ∈ sortDesc xs ↔ x ∈ xs :=
  (List.perm_insertionSort strGe xs).mem_iff

theorem sortDesc_sorted (xs : List String) : (sortDesc xs).Sorted (fun a b => b ≤ a) :=
  (List.sorted_insertionSort strGe xs).imp (fun {a b} h => (strGe_iff_le a b).mp h)

theorem mkSet_go (b : List String) :
    ∀ (m : String → Bool) (y : String),
      (List.foldl (fun m x => fun y => if y = x then true else m y) m b) y
        = (m y || b.contains y) := by
  induction b with
  | nil => intro m y; simp
  | cons x xs ih =>
    intro m y
    simp only [List.foldl_cons, List.contains_cons]
    rw [ih]
    by_cases h : y = x
    · subst h; simp
    · simp [h, beq_eq_false_iff_ne.mpr h]

theorem mkSet_eq (b : List String) (y : String) : mkSet b y = b.contains y := by
  have := mkSet_go b (fun _ => false) y
  simpa [mkSet] using this

theorem difference_eq_filter (a b : List String) :
    difference a b = a.filter (fun x => !(b.contains x)) := by
  unfold difference
  exact List.filter_congr (fun x _ => by rw [mkSet_eq])

theorem mem_difference {a b : List String} {x : String} :
    x ∈ difference a b ↔ x ∈ a ∧ x ∉ b := by
  rw [difference_eq_filter]
  simp [List.mem_filter]

theorem difference_eq_nil_iff {a b : List String} :
    difference a b = [] ↔ ∀ x ∈ a, x ∈ b := by
  rw [difference_eq_filter, List.filter_eq_nil_iff]
  simp

theorem difference_self (a : List String) : difference a a = [] :=
  difference_eq_nil_iff.mpr (fun _ h => h)
theorem getMigrationsToRun_eq_ok {reg : Registry} {l : Ledger}
    (h : difference (getCompletedMigrations l) reg.migrationNames = []) :
    getMigrationsToRun reg l
      = .ok (sortAsc (difference reg.migrationNames (getCompletedMigrations l))) := by
  unfold getMigrationsToRun
  simp [h]

theorem getMigrationsToRun_eq_error {reg : Registry} {l : Ledger}
    (h : difference (getCompletedMigrations l) reg.migrationNames ≠ []) :
    getMigrationsToRun reg l
      = .error (.msg ("Migrations table corrupt: "
          ++ renderNames (difference (getCompletedMigrations l) reg.migrationNames))) := by
  unfold getMigrationsToRun
  simp [List.length_pos.mpr h]

theorem getMigrationsToRun_ok_drift {reg : Registry} {l : Ledger} {plan : List String}
    (h : getMigrationsToRun reg l = .ok plan) :
    difference (getCompletedMigrations l) reg.migrationNames = [] := by
  by_cases hd : difference (getCompletedMigrations l) reg.migrationNames = []
  · exact hd
  · rw [getMigrationsToRun_eq_error hd] at h
    exact absurd h (by simp)

theorem getMigrationsToRun_ok_plan {reg : Registry} {l : Ledger} {plan : List String}
    (h : getMigrationsToRun reg l = .ok plan) :
    plan = sortAsc (difference reg.migrationNames (getCompletedMigrations l)) := by
  rw [getMigrationsToRun_eq_ok (getMigrationsToRun_ok_drift h)] at h
  exact (Except.ok.inj h).symm

theorem getMigrationsToRun_ok_mem {reg : Registry} {l : Ledger} {plan : List String}
    (h : getMigrationsToRun reg l = .ok plan) :
    ∀ x ∈ plan, x ∈ reg.migrationNames ∧ x ∉ getCompletedMigrations l := by
  intro x hx
  rw [getMigrationsToRun_ok_plan h] at hx
  exact mem_difference.mp (mem_sortAsc.mp hx)

theorem getMigrationsToRun_ok_sorted {reg : Registry} {l : Ledger} {plan : List String}
    (h : getMigrationsToRun reg l = .ok plan) : plan.Sorted (· ≤ ·) := by
  rw [getMigrationsToRun_ok_plan h]
  exact sortAsc_sorted _

theorem insertAll_cons (l : Ledger) (n : String) (rest : List String) (batch : Int) :
    insertAll l (n :: rest) batch = insertAll (insertCompletedMigration l n batch) rest batch := rfl

theorem insertAll_rows : ∀ (names : List String) (l : Ledger) (batch : Int),
    (insertAll l names batch).rows = l.rows ++ buildRows l.nextId names batch := by
  intro names
  induction names with
  | nil => intro l batch; simp [insertAll, buildRows]
  | cons n rest ih =>
    intro l batch
    rw [insertAll_cons, ih]
    simp [insertCompletedMigration, buildRows]

theorem insertAll_nextId : ∀ (names : List String) (l : Ledger) (batch : Int),
    (insertAll l names batch).nextId = l.nextId + names.length := by
  intro names
  induction names with
  | nil => intro l batch; rfl
  | cons n rest ih =>
    intro l batch
    rw [insertAll_cons, ih]
    simp [insertCompletedMigration]
    omega

theorem buildRows_map_name : ∀ (names : List String) (s : Nat) (batch : Int),
    (buildRows s names batch).map (·.name) = names := by
  intro names
  induction names with
  | nil => intro s batch; rfl
  | cons n rest ih => intro s batch; simp [buildRows, ih]

theorem buildRows_map_batch : ∀ (names : List String) (s : Nat) (batch : Int),
    (buildRows s names batch).map (·.batch) = names.map (fun _ => batch) := by
  intro names
  induction names with
  | nil => intro s batch; rfl
  | cons n rest ih => intro s batch; simp [buildRows, ih]

theorem buildRows_batch {names : List String} {s : Nat} {batch : Int} {r : LedgerRow}
    (hr : r ∈ buildRows s names batch) : r.batch = batch := by
  have h2 : r.batch ∈ (buildRows s names batch).map (·.batch) := List.mem_map_of_mem _ hr
  rw [buildRows_map_batch] at h2
  simp only [List.mem_map] at h2
  obtain ⟨a, _, h3⟩ := h2
  exact h3.symm

theorem completed_insertAll (l : Ledger) (names : List String) (batch : Int) :
    getCompletedMigrations (insertAll l names batch) = getCompletedMigrations l ++ names := by
  simp [getCompletedMigrations, insertAll_rows, buildRows_map_name]

theorem runUpAll_ok (reg : Registry) (batch : Int) :
    ∀ (names : List String) (l : Ledger), (∀ m ∈ names, upOutcome reg m = none) →
      runUpAll reg batch names l = (none, insertAll l names batch, names) := by
  intro names
  induction names with
  | nil => intro l _; rfl
  | cons m rest ih =>
    intro l h
    have hm : upOutcome reg m = none := h m (List.mem_cons_self _ _)
    have ihr := ih (insertCompletedMigration l m batch)
      (fun x hx => h x (List.mem_cons_of_mem _ hx))
    simp [runUpAll, hm, ihr, insertAll_cons]

theorem runUpAll_fail (reg : Registry) (batch : Int) (b : String) (e : Err)
    (hb : upOutcome reg b = some e) :
    ∀ (pre : List String) (l : Ledger), (∀ m ∈ pre, upOutcome reg m = none) →
      ∀ (post : List String),
        runUpAll reg batch (pre ++ b :: post) l
          = (some (Err.wrap e (b ++ " failed to migrate")), insertAll l pre batch, pre ++ [b]) := by
  intro pre
  induction pre with
  | nil => intro l _ post; simp [runUpAll, hb, insertAll]
  | cons m rest ih =>
    intro l h post
    have hm : upOutcome reg m = none := h m (List.mem_cons_self _ _)
    have ihr := ih (insertCompletedMigration l m batch)
      (fun x hx => h x (List.mem_cons_of_mem _ hx)) post
    simp [runUpAll, hm, ihr, insertAll_cons]

theorem runDownAll_ok (reg : Registry) :
    ∀ (names : List String) (l : Ledger), (∀ m ∈ names, downOutcome reg m = none) →
      runDownAll reg names l = (none, removeAll l names, names) := by
  intro names
  induction names with
  | nil => intro l _; rfl
  | cons m rest ih =>
    intro l h
    have hm : downOutcome reg m = none := h m (List.mem_cons_self _ _)
    have ihr := ih (removeRolledbackMigration l m)
      (fun x hx => h x (List.mem_cons_of_mem _ hx))
    simp [runDownAll, hm, ihr, removeAll]

theorem removeAll_rows : ∀ (names : List String) (l : Ledger),
    (removeAll l names).rows = l.rows.filter (fun r => !(names.contains r.name)) := by
  intro names
  induction names with
  | nil => intro l; simp [removeAll]
  | cons n rest ih =>
    intro l
    have hstep : removeAll l (n :: rest) = removeAll (removeRolledbackMigration l n) rest := rfl
    rw [hstep, ih]
    simp only [removeRolledbackMigration, List.filter_filter]
    apply List.filter_congr
    intro r _
    by_cases hrn : r.name = n
    · simp [List.contains_cons, hrn]
    · simp [List.contains_cons, hrn, beq_eq_false_iff_ne.mpr hrn]

theorem removeAll_nextId : ∀ (names : List String) (l : Ledger),
    (removeAll l names).nextId = l.nextId := by
  intro names
  induction names with
  | nil => intro l; rfl
  | cons n rest ih =>
    intro l
    have hstep : removeAll l (n :: rest) = removeAll (removeRolledbackMigration l n) rest := rfl
    rw [hstep, ih]
    rfl

theorem foldl_max_const : ∀ (cs : List Int) (m B : Int), (∀ x ∈ cs, x = B) →
    cs.foldl max m = if cs.isEmpty then m else max m B := by
  intro cs
  induction cs with
  | nil => intro m B _; rfl
  | cons c cs2 ih =>
    intro m B h
    have hc : c = B := h c (List.mem_cons_self _ _)
    rw [List.foldl_cons, ih (max m c) B (fun x hx => h x (List.mem_cons_of_mem _ hx))]
    cases hcs : cs2.isEmpty
    · simp [hc, max_assoc, max_self]
    · simp [hc]

theorem maxBatchList_append_const {xs cs : List Int} {B : Int}
    (hcs : cs ≠ []) (hall : ∀ x ∈ cs, x = B) (hB : maxBatchList xs ≤ B) :
    maxBatchList (xs ++ cs) = B := by
  cases xs with
  | nil =>
    cases cs with
    | nil => exact absurd rfl hcs
    | cons c cs2 =>
      have hc : c = B := hall c (List.mem_cons_self _ _)
      simp only [List.nil_append, maxBatchList]
      rw [foldl_max_const cs2 c B (fun x hx => hall x (List.mem_cons_of_mem _ hx))]
      cases hcs2 : cs2.isEmpty <;> simp [hc, max_self]
  | cons x xs2 =>
    cases cs with
    | nil => exact absurd rfl hcs
    | cons c cs2 =>
      have hc : c = B := hall c (List.mem_cons_self _ _)
      have hM : maxBatchList (x :: xs2) = xs2.foldl max x := rfl
      simp only [List.cons_append, maxBatchList, List.foldl_append, List.foldl_cons]
      rw [foldl_max_const cs2 (max (xs2.foldl max x) c) B
        (fun y hy => hall y (List.mem_cons_of_mem _ hy))]
      rw [hM] at hB
      have hmc : max (xs2.foldl max x) c = B := by
        rw [hc]; exact max_eq_right hB
      cases hcs2 : cs2.isEmpty <;> simp [hmc, max_self]

theorem getBatchNumber_insertAll {l : Ledger} {names : List String} (h : names ≠ []) :
    getBatchNumber (insertAll l names (getBatchNumber l + 1)) = getBatchNumber l + 1 := by
  unfold getBatchNumber
  rw [insertAll_rows, List.map_append, buildRows_map_batch]
  apply maxBatchList_append_const
  · intro hc
    exact h (List.map_eq_nil_iff.mp hc)
  · intro x hx
    simp only [List.mem_map] at hx
    obtain ⟨a, _, h3⟩ := hx
    exact h3.symm
  · omega
theorem toList_append (a b : String) : (a ++ b).toList = a.toList ++ b.toList :=
  String.data_append a b

theorem charListPrefixOf_append : ∀ (a b : List Char), a.isPrefixOf (a ++ b) = true := by
  intro a b
  induction a with
  | nil => simp [List.isPrefixOf]
  | cons x xs ih => simp [List.isPrefixOf, ih]

theorem isDriftError_corrupt_append (s : String) :
    isDriftError (Err.msg ("Migrations table corrupt: " ++ s)) = true := by
  unfold isDriftError errMessage
  have h0 : ("Migrations table corrupt: " : String).toList
      = "Migrations table corrupt".toList ++ ": ".toList := by decide
  rw [toList_append, h0, List.append_assoc]
  exact charListPrefixOf_append _ _

theorem migrateOneBatch_drift {reg : Registry} {l : Ledger}
    (h : difference (getCompletedMigrations l) reg.migrationNames ≠ []) :
    migrateOneBatch reg l
      = (some (Err.msg ("Migrations table corrupt: "
          ++ renderNames (difference (getCompletedMigrations l) reg.migrationNames))), l, []) := by
  simp [migrateOneBatch, getMigrationsToRun_eq_error h]

theorem migrateOneByOne_drift {reg : Registry} {l : Ledger}
    (h : difference (getCompletedMigrations l) reg.migrationNames ≠ []) :
    migrateOneByOne reg l
      = (some (Err.msg ("Migrations table corrupt: "
          ++ renderNames (difference (getCompletedMigrations l) reg.migrationNames))), l, []) := by
  simp [migrateOneByOne, getMigrationsToRun_eq_error h]

theorem rollback_drift {reg : Registry} {l : Ledger}
    (h : difference (getCompletedMigrations l) reg.migrationNames ≠ []) :
    rollback reg l = (some (Err.msg "Migrations table corrupt"), l, []) := by
  simp [rollback, List.length_pos.mpr h]

theorem initialise_ok {reg : Registry} {initName : String} {m : migration} {l : Ledger}
    (hlook : reg.allMigrations.lookup initName = some m) (hup : m.Up = none) :
    initialise reg initName l
      = (none, insertCompletedMigration l initName (getBatchNumber l + 1), [initName]) := by
  simp [initialise, hlook, hup]

theorem sortAsc_nil : sortAsc [] = [] := rfl

theorem migrateOneBatch_noop {reg : Registry} {l : Ledger}
    (hdrift : difference (getCompletedMigrations l) reg.migrationNames = [])
    (hp : pendingOf reg l = []) : migrateOneBatch reg l = (none, l, []) := by
  unfold pendingOf at hp
  simp [migrateOneBatch, getMigrationsToRun_eq_ok hdrift, hp, sortAsc_nil]

theorem sortAsc_ne_nil {xs : List String} (h : xs ≠ []) : sortAsc xs ≠ [] := by
  intro hc
  have hp := sortAsc_perm xs
  rw [hc] at hp
  exact h hp.symm.eq_nil

theorem migrateOneBatch_run {reg : Registry} {l : Ledger}
    (hdrift : difference (getCompletedMigrations l) reg.migrationNames = [])
    (hok : ∀ m ∈ pendingOf reg l, upOutcome reg m = none)
    (hne : pendingOf reg l ≠ []) :
    migrateOneBatch reg l
      = (none, insertAll l (sortAsc (pendingOf reg l)) (getBatchNumber l + 1),
         sortAsc (pendingOf reg l)) := by
  have hok2 : ∀ m ∈ sortAsc (pendingOf reg l), upOutcome reg m = none :=
    fun m hm => hok m (mem_sortAsc.mp hm)
  have hrun := runUpAll_ok reg (getBatchNumber l + 1) (sortAsc (pendingOf reg l)) l hok2
  have hne2 : sortAsc (pendingOf reg l) ≠ [] := sortAsc_ne_nil hne
  have hbool : (sortAsc (pendingOf reg l)).isEmpty = false := by
    cases hb : (sortAsc (pendingOf reg l)).isEmpty
    · rfl
    · exact absurd (List.isEmpty_iff.mp hb) hne2
  unfold pendingOf at *
  simp [migrateOneBatch, getMigrationsToRun_eq_ok hdrift, hbool, hrun]

theorem mem_getMigrationsInBatch {l : Ledger} {batch : Int} {n : String} :
    n ∈ getMigrationsInBatch l batch ↔ ∃ r ∈ l.rows, r.batch = batch ∧ r.name = n := by
  simp only [getMigrationsInBatch, List.mem_map, List.mem_insertionSort, List.mem_filter,
    decide_eq_true_iff]
  exact ⟨fun ⟨r, ⟨h1, h2⟩, h3⟩ => ⟨r, h1, h2, h3⟩, fun ⟨r, h1, h2, h3⟩ => ⟨r, ⟨h1, h2⟩, h3⟩⟩

theorem rollback_noop {reg : Registry} {l : Ledger}
    (hdrift : difference (getCompletedMigrations l) reg.migrationNames = [])
    (hempty : getMigrationsInBatch l (getBatchNumber l) = []) :
    rollback reg l = (none, l, []) := by
  simp [rollback, hdrift, hempty]

theorem rollback_run {reg : Registry} {l : Ledger}
    (hdrift : difference (getCompletedMigrations l) reg.migrationNames = [])
    (hne : getMigrationsInBatch l (getBatchNumber l) ≠ [])
    (hdown : ∀ m ∈ rollbackPlan l, downOutcome reg m = none) :
    rollback reg l = (none, removeAll l (rollbackPlan l), rollbackPlan l) := by
  have hrun := runDownAll_ok reg (rollbackPlan l) l hdown
  have hbool : (getMigrationsInBatch l (getBatchNumber l)).isEmpty = false := by
    cases hb : (getMigrationsInBatch l (getBatchNumber l)).isEmpty
    · rfl
    · exact absurd (List.isEmpty_iff.mp hb) hne
  unfold rollbackPlan at *
  simp [rollback, hdrift, hbool, hrun]
theorem contains_eq_true_iff_mem (xs : List String) (y : String) :
    xs.contains y = true ↔ y ∈ xs := by
  simp

theorem contains_eq_false_iff_not_mem (xs : List String) (y : String) :
    xs.contains y = false ↔ y ∉ xs := by
  constructor
  · intro h hc
    rw [(contains_eq_true_iff_mem xs y).mpr hc] at h
    cases h
  · intro hnm
    cases h : xs.contains y
    · rfl
    · exact absurd ((contains_eq_true_iff_mem xs y).mp h) hnm

theorem contains_eq_of_perm {xs ys : List String} (h : xs.Perm ys) (y : String) :
    xs.contains y = ys.contains y := by
  by_cases hm : y ∈ ys
  · rw [(contains_eq_true_iff_mem xs y).mpr (h.mem_iff.mpr hm),
      (contains_eq_true_iff_mem ys y).mpr hm]
  · rw [(contains_eq_false_iff_not_mem xs y).mpr (fun hc => hm (h.mem_iff.mp hc)),
      (contains_eq_false_iff_not_mem ys y).mpr hm]

/-- Claim C1 counterexample: for the batch-1 ledger that recorded "b"
before "a", namesInBatch delivers the descending-insertion order a, b, yet
rollback invokes the Down actions in the order b, a — the descending
lexicographic order produced by its own sort — so the revert order is not
the order namesInBatch delivers. -/
theorem c1_counterexample :
    getMigrationsInBatch ledgerBA (getBatchNumber ledgerBA) = ["a", "b"]
    ∧ (rollback regBA ledgerBA).2.2 = ["b", "a"]
    ∧ (["b", "a"] : List String) ≠ ["a", "b"] :=
  ⟨by decide, by decide, by decide⟩

/-- Claim C1 (amended): for every ledger state passing the drift check
whose highest batch is non-empty and whose Down actions succeed, rollback
targets the single highest batch number and reverts exactly the names
recorded in that batch, but in descending lexicographic name order — the
result of its own sort — rather than in the descending-insertion order
delivered by namesInBatch; every ledger row bearing a reverted name is
deleted, which is exactly the target batch's rows whenever the batch's
names occur in no other batch. -/
theorem rollback_reverts_batch_sorted_desc (reg : Registry) (l : Ledger)
    (hdrift : difference (getCompletedMigrations l) reg.migrationNames = [])
    (hne : getMigrationsInBatch l (getBatchNumber l) ≠ [])
    (hdown : ∀ m ∈ rollbackPlan l, downOutcome reg m = none) :
    rollback reg l = (none, removeAll l (rollbackPlan l), rollbackPlan l)
    ∧ (rollbackPlan l).Perm (getMigrationsInBatch l (getBatchNumber l))
    ∧ (rollbackPlan l).Sorted (fun a b => b ≤ a)
    ∧ (removeAll l (rollbackPlan l)).rows
        = l.rows.filter
            (fun r => !((getMigrationsInBatch l (getBatchNumber l)).contains r.name))
    ∧ ((∀ r ∈ l.rows, r.name ∈ getMigrationsInBatch l (getBatchNumber l) →
          r.batch = getBatchNumber l) →
        (removeAll l (rollbackPlan l)).rows
          = l.rows.filter (fun r => decide (r.batch ≠ getBatchNumber l))) := by
  have hperm : (rollbackPlan l).Perm (getMigrationsInBatch l (getBatchNumber l)) := by
    unfold rollbackPlan
    exact sortDesc_perm _
  have hrows : (removeAll l (rollbackPlan l)).rows
      = l.rows.filter
          (fun r => !((getMigrationsInBatch l (getBatchNumber l)).contains r.name)) := by
    rw [removeAll_rows]
    exact List.filter_congr (fun r _ => by rw [contains_eq_of_perm hperm r.name])
  refine ⟨rollback_run hdrift hne hdown, hperm, by unfold rollbackPlan; exact sortDesc_sorted _,
    hrows, ?_⟩
  intro honly
  rw [hrows]
  apply List.filter_congr
  intro r hr
  by_cases hbB : r.batch = getBatchNumber l
  · rw [(contains_eq_true_iff_mem _ _).mpr (mem_getMigrationsInBatch.mpr ⟨r, hr, hbB, rfl⟩)]
    simp [hbB]
  · rw [(contains_eq_false_iff_not_mem _ _).mpr (fun hc => hbB (honly r hr hc))]
    simp [hbB]

/-- Claim C2: whenever some ledger name is not registered (the set
difference ledger minus registry is non-empty), migrate in both modes and
rollback return a drift error and leave the ledger untouched with no Up or
Down action invoked, while initialise performs no such check: it still
runs and records the initial migration. -/
theorem driftCheck_blocks (reg : Registry) (l : Ledger) (initName : String) (m : migration)
    (hdrift : difference (getCompletedMigrations l) reg.migrationNames ≠ [])
    (hlook : reg.allMigrations.lookup initName = some m) (hup : m.Up = none) :
    (∃ e, migrateOneBatch reg l = (some e, l, []) ∧ isDriftError e = true)
    ∧ (∃ e, migrateOneByOne reg l = (some e, l, []) ∧ isDriftError e = true)
    ∧ rollback reg l = (some (Err.msg "Migrations table corrupt"), l, [])
    ∧ isDriftError (Err.msg "Migrations table corrupt") = true
    ∧ initialise reg initName l
        = (none, insertCompletedMigration l initName (getBatchNumber l + 1), [initName]) :=
  ⟨⟨_, migrateOneBatch_drift hdrift, isDriftError_corrupt_append _⟩,
   ⟨_, migrateOneByOne_drift hdrift, isDriftError_corrupt_append _⟩,
   rollback_drift hdrift, by decide, initialise_ok hlook hup⟩

/-- Claim C3: in single-batch mode, when the plan is as ++ b :: cs, every
migration before b succeeds and the forward action of b fails with e, the
whole transaction rolls back: the ledger is unchanged, none of the planned
names is recorded (they were pending, hence absent before), and the error
wraps e under "b failed to migrate". -/
theorem migrateOneBatch_atomic (reg : Registry) (l : Ledger)
    (as : List String) (b : String) (cs : List String) (e : Err)
    (hplan : getMigrationsToRun reg l = .ok (as ++ b :: cs))
    (hpre : ∀ m ∈ as, upOutcome reg m = none)
    (hb : upOutcome reg b = some e) :
    migrateOneBatch reg l = (some (Err.wrap e (b ++ " failed to migrate")), l, as ++ [b])
    ∧ ∀ x ∈ as ++ b :: cs, x ∉ getCompletedMigrations l := by
  constructor
  · have hrun := runUpAll_fail reg (getBatchNumber l + 1) b e hb as l hpre cs
    have hbool : (as ++ b :: cs).isEmpty = false := by simp
    simp [migrateOneBatch, hplan, hbool, hrun]
  · exact fun x hx => (getMigrationsToRun_ok_mem hplan x hx).2

/-- Claim C4: in one-by-one mode each pending migration runs in its own
transaction under its own batch number, the ledger maximum plus one at the
time it runs; when the first planned migration a succeeds and the second
one b fails, a stays committed as its own batch while b and every later
planned migration remain unapplied. -/
theorem migrateOneByOne_partialProgress (reg : Registry) (l : Ledger)
    (a b : String) (rest : List String) (e : Err)
    (hplan : getMigrationsToRun reg l = .ok (a :: b :: rest))
    (ha : upOutcome reg a = none)
    (hb : upOutcome reg b = some e) :
    migrateOneByOne reg l
      = (some (Err.wrap e (b ++ " failed to migrate")),
         insertCompletedMigration l a (getBatchNumber l + 1), [a, b])
    ∧ getCompletedMigrations (insertCompletedMigration l a (getBatchNumber l + 1))
        = getCompletedMigrations l ++ [a]
    ∧ ∀ x ∈ b :: rest,
        x ∉ getCompletedMigrations (insertCompletedMigration l a (getBatchNumber l + 1)) := by
  have hc : getCompletedMigrations (insertCompletedMigration l a (getBatchNumber l + 1))
      = getCompletedMigrations l ++ [a] := by
    simp [getCompletedMigrations, insertCompletedMigration]
  refine ⟨?_, hc, ?_⟩
  · simp [migrateOneByOne, hplan, oneByOneLoop, ha, hb]
  · intro x hx
    have hxmem : x ∈ a :: b :: rest := List.mem_cons_of_mem _ hx
    have hnotin : x ∉ getCompletedMigrations l := (getMigrationsToRun_ok_mem hplan x hxmem).2
    have hxa : x ≠ a := by
      intro hxa
      rcases List.mem_cons.mp hx with hxb | hxr
      · rw [hxb] at hxa
        rw [hxa] at hb
        rw [ha] at hb
        cases hb
      · have hsorted := getMigrationsToRun_ok_sorted hplan
        rw [List.sorted_cons] at hsorted
        obtain ⟨h1, h2⟩ := hsorted
        rw [List.sorted_cons] at h2
        obtain ⟨h3, _⟩ := h2
        have hab : a ≤ b := h1 b (List.mem_cons_self _ _)
        have hba : b ≤ a := hxa ▸ h3 x hxr
        have heq : a = b := le_antisymm hab hba
        rw [← heq] at hb
        rw [ha] at hb
        cases hb
    rw [hc]
    simp [List.mem_append, hnotin, hxa]

/-- Claim C5 counterexample: for the registry that registers only "a" and
the drifted ledger recording "a" and "z", the pending set (registered
minus ledger names) is empty, yet migrate is not a no-op success in
either mode — it returns the drift error — refuting the unconditional
"if the pending set is empty it is a no-op success". -/
theorem c5_counterexample :
    difference regOnlyA.migrationNames (getCompletedMigrations ledgerDrift) = []
    ∧ (migrateOneBatch regOnlyA ledgerDrift).1 ≠ none
    ∧ (migrateOneByOne regOnlyA ledgerDrift).1 ≠ none :=
  ⟨by decide, by decide, by decide⟩

/-- Claim C5 (amended): for every registry and ledger state that passes
the drift check and whose pending forward actions succeed, migrate
computes the pending set as registered names minus ledger names; if that
set is empty the run is a no-op success, otherwise it applies the pending
migrations in ascending lexicographic name order, records them all under
the single batch number maxBatch plus one, and a second consecutive
migrate with no new registrations is a no-op. -/
theorem migrate_pending (reg : Registry) (l : Ledger)
    (hdrift : difference (getCompletedMigrations l) reg.migrationNames = [])
    (hok : ∀ m ∈ pendingOf reg l, upOutcome reg m = none) :
    (pendingOf reg l = [] → migrateOneBatch reg l = (none, l, []))
    ∧ (pendingOf reg l ≠ [] →
        migrateOneBatch reg l
          = (none, insertAll l (sortAsc (pendingOf reg l)) (getBatchNumber l + 1),
             sortAsc (pendingOf reg l))
        ∧ (sortAsc (pendingOf reg l)).Perm (pendingOf reg l)
        ∧ (sortAsc (pendingOf reg l)).Sorted (· ≤ ·)
        ∧ (∀ r ∈ (insertAll l (sortAsc (pendingOf reg l)) (getBatchNumber l + 1)).rows,
            r ∉ l.rows → r.batch = getBatchNumber l + 1))
    ∧ migrateOneBatch reg ((migrateOneBatch reg l).2.1)
        = (none, (migrateOneBatch reg l).2.1, []) := by
  refine ⟨fun hp => migrateOneBatch_noop hdrift hp,
    fun hne => ⟨migrateOneBatch_run hdrift hok hne, sortAsc_perm _, sortAsc_sorted _, ?_⟩, ?_⟩
  · intro r hr hrl
    rw [insertAll_rows] at hr
    rcases List.mem_append.mp hr with h1 | h2
    · exact absurd h1 hrl
    · exact buildRows_batch h2
  · by_cases hp : pendingOf reg l = []
    · rw [migrateOneBatch_noop hdrift hp]
      exact migrateOneBatch_noop hdrift hp
    · have heq := migrateOneBatch_run hdrift hok hp
      rw [heq]
      have hcomp : getCompletedMigrations
            (insertAll l (sortAsc (pendingOf reg l)) (getBatchNumber l + 1))
          = getCompletedMigrations l ++ sortAsc (pendingOf reg l) :=
        completed_insertAll l _ _
      have hdrift2 : difference
          (getCompletedMigrations
            (insertAll l (sortAsc (pendingOf reg l)) (getBatchNumber l + 1)))
          reg.migrationNames = [] := by
        rw [hcomp, difference_eq_nil_iff]
        intro x hx
        rcases List.mem_append.mp hx with h1 | h2
        · exact difference_eq_nil_iff.mp hdrift x h1
        · exact (mem_difference.mp (mem_sortAsc.mp h2)).1
      have hp2 : pendingOf reg
          (insertAll l (sortAsc (pendingOf reg l)) (getBatchNumber l + 1)) = [] := by
        show difference reg.migrationNames
            (getCompletedMigrations
              (insertAll l (sortAsc (pendingOf reg l)) (getBatchNumber l + 1))) = []
        rw [difference_eq_nil_iff]
        intro x hx
        rw [hcomp]
        by_cases hxl : x ∈ getCompletedMigrations l
        · exact List.mem_append.mpr (Or.inl hxl)
        · exact List.mem_append.mpr
            (Or.inr (mem_sortAsc.mpr (mem_difference.mpr ⟨hx, hxl⟩)))
      exact migrateOneBatch_noop hdrift2 hp2

/-- Claim C6: the batch a successful migrate run assigns is the current
ledger maximum plus one, getBatchNumber of the empty ledger is 0, every
newly inserted row of the run carries that batch number, and the ledger
maximum afterwards is the old maximum plus one, so batch numbers grow by
one across successful runs. -/
theorem batch_monotonic (reg : Registry) (l : Ledger)
    (hdrift : difference (getCompletedMigrations l) reg.migrationNames = [])
    (hok : ∀ m ∈ pendingOf reg l, upOutcome reg m = none)
    (hne : pendingOf reg l ≠ []) :
    getBatchNumber emptyLedger = 0
    ∧ (migrateOneBatch reg l).1 = none
    ∧ getBatchNumber ((migrateOneBatch reg l).2.1) = getBatchNumber l + 1
    ∧ ∀ r ∈ ((migrateOneBatch reg l).2.1).rows, r ∉ l.rows →
        r.batch = getBatchNumber l + 1 := by
  have heq := migrateOneBatch_run hdrift hok hne
  refine ⟨rfl, by rw [heq], ?_, ?_⟩
  · rw [heq]
    exact getBatchNumber_insertAll (sortAsc_ne_nil hne)
  · rw [heq]
    intro r hr hrl
    rw [insertAll_rows] at hr
    rcases List.mem_append.mp hr with h1 | h2
    · exact absurd h1 hrl
    · exact buildRows_batch h2

/-- Claim C7 counterexample: Register has no failure path — registering
the same name twice simply appends it again, so the registered name list
is not duplicate-free, and registering the empty name also goes through. -/
theorem c7_counterexample :
    (Register (Register emptyRegistry "a" none none) "a" none none).migrationNames = ["a", "a"]
    ∧ ¬ (Register (Register emptyRegistry "a" none none) "a" none none).migrationNames.Nodup
    ∧ (Register emptyRegistry "" none none).migrationNames = [""] :=
  ⟨by decide, by decide, by decide⟩

/-- Claim C7 (amended): Register never fails: it unconditionally appends
name — empty or already registered alike — to the ordered name list and
overwrites the mapping entry for name (last registration wins), so the
name list may contain duplicates while the mapping keys stay unique. -/
theorem Register_total (reg : Registry) (name : String) (up down : Option Err)
    (hkeys : (reg.allMigrations.map (fun p => p.1)).Nodup) :
    (Register reg name up down).migrationNames = reg.migrationNames ++ [name]
    ∧ (Register reg name up down).allMigrations.lookup name = some ⟨name, up, down⟩
    ∧ ((Register reg name up down).allMigrations.map (fun p => p.1)).Nodup := by
  refine ⟨rfl, by simp [Register, List.lookup], ?_⟩
  simp only [Register, List.map_cons]
  rw [List.nodup_cons]
  constructor
  · intro hc
    simp only [List.mem_map] at hc
    obtain ⟨p, hp, hpn⟩ := hc
    have := List.of_mem_filter hp
    simp at this
    exact this hpn
  · have hsub : ((reg.allMigrations.filter (fun p => p.1 ≠ name)).map
        (fun p : String × migration => p.1)).Sublist
        (reg.allMigrations.map (fun p : String × migration => p.1)) :=
      (List.filter_sublist reg.allMigrations).map _
    exact hkeys.sublist hsub

/-- Claim C8: any command outside the dispatch table init, migrate,
rollback, create makes Run return an error naming the unknown command,
and create with its required name argument missing is rejected with an
error before any database interaction (no database action is reached in
either case). -/
theorem Run_rejects_unknown (reg : Registry) (initName : String) (l : Ledger)
    (cmd : String) (options : List String)
    (hcmd : cmd ∉ (["init", "migrate", "rollback", "create"] : List String)) :
    Run reg initName l cmd options
      = .usage (.msg ("unsupported command: \"" ++ cmd ++ "\""))
    ∧ Run reg initName l "create" [] = .usage (.msg "Please enter migration name") := by
  have h1 : ¬ cmd = "init" := fun h => hcmd (by simp [h])
  have h2 : ¬ cmd = "migrate" := fun h => hcmd (by simp [h])
  have h3 : ¬ cmd = "rollback" := fun h => hcmd (by simp [h])
  have h4 : ¬ cmd = "create" := fun h => hcmd (by simp [h])
  constructor
  · simp [Run, h1, h2, h3, h4]
  · simp [Run]

/-- Claim C9: initialise never consults the recorded names: whenever the
configured initial migration is registered with a succeeding forward
action, it runs that action and inserts a ledger row under batch
maxBatch plus one for every ledger state — so on a ledger already
recording the name it runs the action again and adds a second row for the
same name under a new batch number. -/
theorem initialise_always_runs (reg : Registry) (initName : String) (m : migration)
    (l : Ledger)
    (hlook : reg.allMigrations.lookup initName = some m) (hup : m.Up = none) :
    initialise reg initName l
      = (none, insertCompletedMigration l initName (getBatchNumber l + 1), [initName])
    ∧ (getCompletedMigrations
        (insertCompletedMigration l initName (getBatchNumber l + 1))).count initName
        = (getCompletedMigrations l).count initName + 1 := by
  refine ⟨initialise_ok hlook hup, ?_⟩
  simp [getCompletedMigrations, insertCompletedMigration, List.count_append]

/-- Claim C10: difference returns exactly the elements of its first list
that do not occur in its second, keeping their relative order and
duplicate occurrences (it is the corresponding filter of the first list),
and the difference of a list with itself is empty. -/
theorem difference_spec (a b : List String) :
    difference a b = a.filter (fun x => !(b.contains x))
    ∧ (∀ x, x ∈ difference a b ↔ x ∈ a ∧ x ∉ b)
    ∧ difference a a = [] :=
  ⟨difference_eq_filter a b, fun _ => mem_difference, difference_self a⟩
/-- Witness for the amended claim C1 at the out-of-order batch fixture. -/
theorem rollback_reverts_batch_sorted_desc_witness :
    rollback regBA ledgerBA
      = (none, removeAll ledgerBA (rollbackPlan ledgerBA), rollbackPlan ledgerBA)
    ∧ (rollbackPlan ledgerBA).Perm (getMigrationsInBatch ledgerBA (getBatchNumber ledgerBA))
    ∧ (rollbackPlan ledgerBA).Sorted (fun a b => b ≤ a)
    ∧ (removeAll ledgerBA (rollbackPlan ledgerBA)).rows
        = ledgerBA.rows.filter
            (fun r => !((getMigrationsInBatch ledgerBA (getBatchNumber ledgerBA)).contains r.name))
    ∧ ((∀ r ∈ ledgerBA.rows,
          r.name ∈ getMigrationsInBatch ledgerBA (getBatchNumber ledgerBA) →
          r.batch = getBatchNumber ledgerBA) →
        (removeAll ledgerBA (rollbackPlan ledgerBA)).rows
          = ledgerBA.rows.filter (fun r => decide (r.batch ≠ getBatchNumber ledgerBA))) :=
  rollback_reverts_batch_sorted_desc regBA ledgerBA (by decide) (by decide) (by decide)

/-- Witness for claim C2 at the drifted fixture ledger. -/
theorem driftCheck_blocks_witness :
    (∃ e, migrateOneBatch regOnlyA ledgerDrift = (some e, ledgerDrift, [])
      ∧ isDriftError e = true)
    ∧ (∃ e, migrateOneByOne regOnlyA ledgerDrift = (some e, ledgerDrift, [])
      ∧ isDriftError e = true)
    ∧ rollback regOnlyA ledgerDrift
        = (some (Err.msg "Migrations table corrupt"), ledgerDrift, [])
    ∧ isDriftError (Err.msg "Migrations table corrupt") = true
    ∧ initialise regOnlyA "a" ledgerDrift
        = (none, insertCompletedMigration ledgerDrift "a" (getBatchNumber ledgerDrift + 1),
           ["a"]) :=
  driftCheck_blocks regOnlyA ledgerDrift "a" ⟨"a", none, none⟩
    (by decide) (by decide) (by decide)

/-- Witness for claim C3 with the pending set a, b, c and b failing. -/
theorem migrateOneBatch_atomic_witness :
    migrateOneBatch regFailB emptyLedger
      = (some (Err.wrap (Err.msg "boom") ("b" ++ " failed to migrate")), emptyLedger,
         ["a"] ++ ["b"])
    ∧ ∀ x ∈ ["a"] ++ "b" :: ["c"], x ∉ getCompletedMigrations emptyLedger :=
  migrateOneBatch_atomic regFailB emptyLedger ["a"] "b" ["c"] (Err.msg "boom")
    (by rfl) (by decide) (by decide)

/-- Witness for claim C4 with a succeeding and b failing one-by-one. -/
theorem migrateOneByOne_partialProgress_witness :
    migrateOneByOne regFailB emptyLedger
      = (some (Err.wrap (Err.msg "boom") ("b" ++ " failed to migrate")),
         insertCompletedMigration emptyLedger "a" (getBatchNumber emptyLedger + 1), ["a", "b"])
    ∧ getCompletedMigrations
        (insertCompletedMigration emptyLedger "a" (getBatchNumber emptyLedger + 1))
        = getCompletedMigrations emptyLedger ++ ["a"]
    ∧ ∀ x ∈ "b" :: ["c"],
        x ∉ getCompletedMigrations
          (insertCompletedMigration emptyLedger "a" (getBatchNumber emptyLedger + 1)) :=
  migrateOneByOne_partialProgress regFailB emptyLedger "a" "b" ["c"] (Err.msg "boom")
    (by rfl) (by decide) (by decide)

/-- Witness for the amended claim C5 on the empty ledger. -/
theorem migrate_pending_witness :
    (pendingOf regBA emptyLedger = [] → migrateOneBatch regBA emptyLedger
        = (none, emptyLedger, []))
    ∧ (pendingOf regBA emptyLedger ≠ [] →
        migrateOneBatch regBA emptyLedger
          = (none, insertAll emptyLedger (sortAsc (pendingOf regBA emptyLedger))
              (getBatchNumber emptyLedger + 1),
             sortAsc (pendingOf regBA emptyLedger))
        ∧ (sortAsc (pendingOf regBA emptyLedger)).Perm (pendingOf regBA emptyLedger)
        ∧ (sortAsc (pendingOf regBA emptyLedger)).Sorted (· ≤ ·)
        ∧ (∀ r ∈ (insertAll emptyLedger (sortAsc (pendingOf regBA emptyLedger))
              (getBatchNumber emptyLedger + 1)).rows,
            r ∉ emptyLedger.rows → r.batch = getBatchNumber emptyLedger + 1))
    ∧ migrateOneBatch regBA ((migrateOneBatch regBA emptyLedger).2.1)
        = (none, (migrateOneBatch regBA emptyLedger).2.1, []) :=
  migrate_pending regBA emptyLedger (by decide) (by decide)

/-- Witness for claim C6: a second migrate on top of batch 1 assigns
batch 2 (the recorded maximum 1 plus one). -/
theorem batch_monotonic_witness :
    getBatchNumber emptyLedger = 0
    ∧ (migrateOneBatch regBAC ledgerBatch1).1 = none
    ∧ getBatchNumber ((migrateOneBatch regBAC ledgerBatch1).2.1)
        = getBatchNumber ledgerBatch1 + 1
    ∧ ∀ r ∈ ((migrateOneBatch regBAC ledgerBatch1).2.1).rows, r ∉ ledgerBatch1.rows →
        r.batch = getBatchNumber ledgerBatch1 + 1 :=
  batch_monotonic regBAC ledgerBatch1 (by decide) (by decide) (by decide)

/-- Witness for the amended claim C7 at a concrete registry. -/
theorem Register_total_witness :
    (Register regOnlyA "x" none none).migrationNames = regOnlyA.migrationNames ++ ["x"]
    ∧ (Register regOnlyA "x" none none).allMigrations.lookup "x" = some ⟨"x", none, none⟩
    ∧ ((Register regOnlyA "x" none none).allMigrations.map (fun p => p.1)).Nodup :=
  Register_total regOnlyA "x" none none (by decide)

/-- Witness for claim C8 at a command outside the dispatch table. -/
theorem Run_rejects_unknown_witness :
    Run regOnlyA "a" emptyLedger "frobnicate" []
      = .usage (.msg ("unsupported command: \"" ++ "frobnicate" ++ "\""))
    ∧ Run regOnlyA "a" emptyLedger "create" []
        = .usage (.msg "Please enter migration name") :=
  Run_rejects_unknown regOnlyA "a" emptyLedger "frobnicate" [] (by decide)

/-- Witness for claim C9: a second init on a ledger already recording the
initial migration inserts a second row for the same name. -/
theorem initialise_always_runs_witness :
    initialise regOnlyA "a" (insertCompletedMigration emptyLedger "a" 1)
      = (none, insertCompletedMigration (insertCompletedMigration emptyLedger "a" 1) "a"
          (getBatchNumber (insertCompletedMigration emptyLedger "a" 1) + 1), ["a"])
    ∧ (getCompletedMigrations
        (insertCompletedMigration (insertCompletedMigration emptyLedger "a" 1) "a"
          (getBatchNumber (insertCompletedMigration emptyLedger "a" 1) + 1))).count "a"
        = (getCompletedMigrations (insertCompletedMigration emptyLedger "a" 1)).count "a"
            + 1 :=
  initialise_always_runs regOnlyA "a" ⟨"a", none, none⟩
    (insertCompletedMigration emptyLedger "a" 1) (by decide) (by decide)
end HbMigrations
